import Mathlib

/-!
Verification of the typemark core (parser, compiler, codegen) against its
natural-language specification.

The TypeScript sources are shallowly embedded over `List Char`:

* `src/packages/typemark/src/parser.ts`   — `splitFrontmatter`, `extractImports`,
  `extractPreamble`, `extractPropsBody`, `extractPropKeys`, `parse`;
* `src/packages/typemark/src/compiler.ts` — `compile`, `compileToString`;
* codegen — `generateDts`.

JavaScript string primitives (`indexOf`, `slice`, `trim`, `split`,
`startsWith`, global regex replace, and the one regular expression used by
`extractPreamble`) are modelled character-by-character over ASCII text; all
definitions are structural recursions so that every concrete instance can be
evaluated by the kernel.
-/

namespace Typemark

/-- Whitespace characters recognised by the embedding of JS `trim` / `\s`
(the ASCII subset: space, tab, newline, carriage return, vertical tab,
form feed). -/
def wsChar (c : Char) : Bool :=
  c = ' ' || c = '\t' || c = '\n' || c = '\r' || c = '\x0b' || c = '\x0c'

/-- Word characters of the JS regex class `\w`: `[A-Za-z0-9_]`. -/
def wordChar (c : Char) : Bool :=
  ('a' ≤ c && c ≤ 'z') || ('A' ≤ c && c ≤ 'Z') || ('0' ≤ c && c ≤ '9') || c = '_'

/-- JS `String.prototype.startsWith` on character lists. -/
def startsWithL : List Char → List Char → Bool
  | [], _ => true
  | _ :: _, [] => false
  | p :: ps, c :: cs => p = c && startsWithL ps cs

/-- The pattern occurs in `s` at position `i`. -/
def occursAt (pat s : List Char) (i : Nat) : Prop :=
  startsWithL pat (s.drop i) = true

instance (pat s : List Char) (i : Nat) : Decidable (occursAt pat s i) := by
  unfold occursAt; infer_instance

/-- The pattern occurs somewhere in `s` (substring containment). -/
def containsL (pat s : List Char) : Prop :=
  ∃ u v, s = u ++ pat ++ v

/-- First occurrence of `pat` in `s` is at `i`. -/
def firstOccur (pat s : List Char) (i : Nat) : Prop :=
  occursAt pat s i ∧ ∀ j < i, ¬ occursAt pat s j

/-- First occurrence of `pat` in `s` at a position `≥ start` is at `i`. -/
def firstOccurFrom (pat s : List Char) (start i : Nat) : Prop :=
  occursAt pat s i ∧ start ≤ i ∧ ∀ j, start ≤ j → j < i → ¬ occursAt pat s j

/-- JS `String.prototype.indexOf(pat)` (searching from the start), as an
optional index. -/
def indexOfAux (pat : List Char) : List Char → Option Nat
  | [] => if startsWithL pat [] then some 0 else none
  | c :: rest =>
    if startsWithL pat (c :: rest) then some 0
    else (indexOfAux pat rest).map (· + 1)

/-- JS `String.prototype.indexOf(pat, start)`. -/
def indexOfFrom (pat s : List Char) (start : Nat) : Option Nat :=
  (indexOfAux pat (s.drop start)).map (· + start)

/-- JS `String.prototype.slice(a, b)` (for `0 ≤ a ≤ b`). -/
def sliceL (s : List Char) (a b : Nat) : List Char :=
  (s.drop a).take (b - a)

/-- JS `String.prototype.trim` (ASCII whitespace). -/
def trim (s : List Char) : List Char :=
  ((s.dropWhile wsChar).reverse.dropWhile wsChar).reverse

/-- JS `String.prototype.split("\n")`. -/
def splitLines : List Char → List (List Char)
  | [] => [[]]
  | c :: rest =>
    if c = '\n' then [] :: splitLines rest
    else
      match splitLines rest with
      | [] => [[c]]
      | l :: ls => (c :: l) :: ls

/-- JS `Array.prototype.join(sep)`. -/
def joinWith (sep : List Char) : List (List Char) → List Char
  | [] => []
  | [x] => x
  | x :: y :: ys => x ++ sep ++ joinWith sep (y :: ys)

/-- The newline separator used by `join("\n")`. -/
def nlL : List Char := ['\n']

/-- The frontmatter delimiter `---` (parser.ts, `FRONTMATTER_DELIMITER`). -/
def DELIM : List Char := ['-', '-', '-']

/-- The five failure cases thrown by `parse` (parser.ts throws `Error`s with
distinct messages; the constructors carry the distinction). -/
inductive ParseError where
  | noOpeningDelimiter
  | noClosingDelimiter
  | missingProps
  | missingOpenBrace
  | unbalancedBraces
deriving DecidableEq, Repr

/-- The exact message text of each thrown `Error` in parser.ts. -/
def ParseError.message : ParseError → List Char
  | .noOpeningDelimiter => ("Missing frontmatter: no opening `---` found").toList
  | .noClosingDelimiter => ("Missing frontmatter: no closing `---` found").toList
  | .missingProps => ("Missing `interface Props \x7b ... \x7d` in frontmatter").toList
  | .missingOpenBrace => ("Missing opening `\x7b` for Props interface").toList
  | .unbalancedBraces => ("Unmatched `\x7b` in Props interface").toList

/-- Embedding of `splitFrontmatter` (parser.ts lines 35-54). -/
def splitFrontmatter (source : List Char) : Except ParseError (List Char × List Char) :=
  match indexOfAux DELIM source with
  | none => .error .noOpeningDelimiter
  | some firstIndex =>
    match indexOfFrom DELIM source (firstIndex + DELIM.length) with
    | none => .error .noClosingDelimiter
    | some secondIndex =>
      .ok (trim (sliceL source (firstIndex + DELIM.length) secondIndex),
           trim (source.drop (secondIndex + DELIM.length)))

/-- The literal prefix tested by `extractImports`. -/
def importTypeKW : List Char := ("import type").toList

/-- Embedding of `extractImports` (parser.ts lines 59-64): split on newlines,
trim each line, keep lines starting with `import type`. -/
def extractImports (frontmatter : List Char) : List (List Char) :=
  ((splitLines frontmatter).map trim).filter (fun line => startsWithL importTypeKW line)

/-- The keyword `interface`. -/
def ifaceKW : List Char := ("interface").toList

/-- The keyword `type`. -/
def typeKW : List Char := ("type").toList

/-- The identifier `Props`. -/
def propsIdent : List Char := ("Props").toList

/-- The lookahead `(?!Props\b)` of the preamble regex holds (i.e. blocks a
match) at this suffix: the text starts with `Props` and the following
character, if any, is not a word character. -/
def propsBoundaryAt (t : List Char) : Bool :=
  startsWithL propsIdent t &&
    (match t.drop propsIdent.length with
     | [] => true
     | c :: _ => !wordChar c)

/-- One attempt of the regex `/(?:interface|type)\s+(?!Props\b)(\w+)/` at
position `i` of `s`; returns the end position of the full match on success.
The alternation is deterministic (the keywords start with different
characters) and greedy `\s+`/`\w+` never need backtracking here, because a
shorter `\s+` leaves a whitespace character where `\w+` must start. -/
def tryMatchAt (s : List Char) (i : Nat) : Option Nat :=
  let t := s.drop i
  let kwLen : Option Nat :=
    if startsWithL ifaceKW t then some ifaceKW.length
    else if startsWithL typeKW t then some typeKW.length
    else none
  match kwLen with
  | none => none
  | some k =>
    let t1 := t.drop k
    let wsLen := (t1.takeWhile wsChar).length
    if wsLen = 0 then none
    else
      let t2 := t1.drop wsLen
      if propsBoundaryAt t2 then none
      else
        let wLen := (t2.takeWhile wordChar).length
        if wLen = 0 then none else some (i + k + wsLen + wLen)

/-- Scan for the first regex match at a position `≥ i`; `t` is the suffix
`s.drop i`, carried to keep the recursion structural. -/
def findMatchAux (s : List Char) : List Char → Nat → Option (Nat × Nat)
  | [], _ => none
  | _ :: rest, i =>
    match tryMatchAt s i with
    | some e => some (i, e)
    | none => findMatchAux s rest (i + 1)

/-- All matches of the preamble regex with the `g` flag (JS `matchAll`):
repeatedly find the next match, continuing at the end of the previous full
match. Every match spans at least one character, so positions strictly
increase and `s.length + 1` rounds of fuel can never be exhausted. -/
def regexMatchesAux (s : List Char) : Nat → Nat → List (Nat × Nat)
  | 0, _ => []
  | fuel + 1, i =>
    match findMatchAux s (s.drop i) i with
    | none => []
    | some (st, e) => (st, e) :: regexMatchesAux s fuel e

/-- The full `matchAll` result for the preamble regex, as (start, end) pairs. -/
def regexMatchList (s : List Char) : List (Nat × Nat) :=
  regexMatchesAux s (s.length + 1) 0

/-- The single-character pattern `{` searched for by `indexOf("{", ...)`. -/
def lbraceStr : List Char := ['\x7b']

/-- The single-character pattern `\n`. -/
def nlStr : List Char := ['\n']

/-- The brace-depth scan loop shared by `extractPreamble` and
`extractPropsBody`: starting at position `i` with the given depth, walk
while `i < s.length && depth > 0`, incrementing on `{` and decrementing on
`}`; returns the final position and the final depth. `t` is the suffix
`s.drop i`, carried to keep the recursion structural. -/
def braceScanAux : List Char → Nat → Nat → Nat × Nat
  | [], i, depth => (i, depth)
  | c :: rest, i, depth =>
    if depth = 0 then (i, depth)
    else braceScanAux rest (i + 1)
      (if c = '\x7b' then depth + 1 else if c = '\x7d' then depth - 1 else depth)

/-- Brace-depth scan over `s` from position `i` at the given starting depth. -/
def braceScan (s : List Char) (i depth : Nat) : Nat × Nat :=
  braceScanAux (s.drop i) i depth

/-- End position used for a captured `type` alias: the next newline after
`start`, or the end of the text (parser.ts lines 89-91). -/
def lineEndPos (s : List Char) (start : Nat) : Nat :=
  match indexOfFrom nlStr s start with
  | some e => e
  | none => s.length

/-- Embedding of `extractPreamble` (parser.ts lines 70-96): for each regex
match, an `interface` match captures from the match start through the
brace-balanced close (skipped entirely when no `{` follows), and a `type`
match captures to the end of the line; each capture is trimmed. -/
def extractPreamble (frontmatter : List Char) : List (List Char) :=
  (regexMatchList frontmatter).foldl
    (fun acc m =>
      if startsWithL ifaceKW (frontmatter.drop m.1) then
        match indexOfFrom lbraceStr frontmatter m.1 with
        | none => acc
        | some openBrace =>
          acc ++ [trim (sliceL frontmatter m.1 (braceScan frontmatter (openBrace + 1) 1).1)]
      else
        acc ++ [trim (sliceL frontmatter m.1 (lineEndPos frontmatter m.1))])
    []

/-- The literal marker `interface Props` searched for by `extractPropsBody`. -/
def propsMarker : List Char := ("interface Props").toList

/-- Embedding of `extractPropsBody` (parser.ts lines 102-129): find the
marker, find the next `{`, scan braces from depth 1; fail if the scan ends
with nonzero depth; return the trimmed text strictly between the braces. -/
def extractPropsBody (frontmatter : List Char) : Except ParseError (List Char) :=
  match indexOfAux propsMarker frontmatter with
  | none => .error .missingProps
  | some markerIndex =>
    match indexOfFrom lbraceStr frontmatter (markerIndex + propsMarker.length) with
    | none => .error .missingOpenBrace
    | some openBrace =>
      let scan := braceScan frontmatter (openBrace + 1) 1
      if scan.2 ≠ 0 then .error .unbalancedBraces
      else .ok (trim (sliceL frontmatter (openBrace + 1) (scan.1 - 1)))

/-- The key matcher `/^(\w+)\s*[?]?\s*:/` of `extractPropKeys`, applied to a
trimmed line; returns the captured identifier. Greedy `\w+` needs no
backtracking: any shorter prefix leaves a word character where `\s*[?]?\s*:`
would have to accept it, which it cannot. -/
def matchKey (t : List Char) : Option (List Char) :=
  let w := t.takeWhile wordChar
  if w = [] then none
  else
    let r1 := (t.drop w.length).dropWhile wsChar
    let r2 := match r1 with
              | '?' :: rest => rest
              | _ => r1
    let r3 := r2.dropWhile wsChar
    match r3 with
    | ':' :: _ => some w
    | _ => none

/-- One step of the brace-depth update of `extractPropKeys`: increment on
`\x7b`, decrement on `\x7d`; depth is a JS number, so `Int`. -/
def braceF (d : Int) (c : Char) : Int :=
  if c = '\x7b' then d + 1 else if c = '\x7d' then d - 1 else d

/-- The brace-depth delta contributed by one line (the inner `for (const ch
of trimmed)` loop of `extractPropKeys`). -/
def braceDeltaLine (t : List Char) : Int :=
  t.foldl braceF 0

/-- The per-line loop of `extractPropKeys` (parser.ts lines 141-158): skip
blank lines; at depth 0 test the trimmed line against the key regex; then
update the running depth with the line's braces. -/
def propKeysGo : List (List Char) → Int → List (List Char)
  | [], _ => []
  | line :: rest, depth =>
    let trimmed := trim line
    if trimmed = [] then propKeysGo rest depth
    else
      (if depth = 0 then
        match matchKey trimmed with
        | some k => [k]
        | none => []
      else []) ++ propKeysGo rest (depth + braceDeltaLine trimmed)

/-- Embedding of `extractPropKeys` (parser.ts lines 137-161). -/
def extractPropKeys (propsBody : List Char) : List (List Char) :=
  propKeysGo (splitLines propsBody) 0

/-- The parsed-template record (types.ts `ParsedTemplate`). -/
structure ParsedTemplate where
  imports : List (List Char)
  preamble : List (List Char)
  propsBody : List Char
  body : List Char
  propKeys : List (List Char)
deriving DecidableEq, Repr

/-- Embedding of `parse` (parser.ts lines 21-29). `extractImports`,
`extractPreamble` and `extractPropKeys` are total, so the only failure
points are `splitFrontmatter` and `extractPropsBody`, in that order. -/
def parse (source : List Char) : Except ParseError ParsedTemplate :=
  match splitFrontmatter source with
  | .error e => .error e
  | .ok (frontmatter, body) =>
    match extractPropsBody frontmatter with
    | .error e => .error e
    | .ok propsBody =>
      .ok { imports := extractImports frontmatter
            preamble := extractPreamble frontmatter
            propsBody := propsBody
            body := body
            propKeys := extractPropKeys propsBody }

/-- A compiled template (types.ts `Template`): a render function over a
property bag, and the raw body. Property bags are association lists from
names to (string) values. -/
structure Template where
  render : List (List Char × List Char) → List Char
  raw : List Char

/-- Look a name up in a property bag; a missing binding yields the string
`undefined`, matching JS destructuring of an absent key followed by
string interpolation of `undefined`. -/
def bagLookup (props : List (List Char × List Char)) (k : List Char) : List Char :=
  match props with
  | [] => ("undefined").toList
  | (k', v) :: rest => if k' = k then v else bagLookup rest k

/-- Modelled from the spec: the host template-literal interpolation engine
(spec sections 4.2 and 6), which is outside the repository (`compile` defers
to `new Function`). Restricted to interpolation spans `$\x7bident\x7d` whose
expression is a plain identifier looked up in the bindings; this is the
fragment exercised by the spec's end-to-end example. Fuel is the remaining
text length, which strictly decreases each step. -/
def evalT (bag : List (List Char × List Char)) : Nat → List Char → List Char
  | 0, _ => []
  | _, [] => []
  | fuel + 1, '$' :: '\x7b' :: r =>
    let expr := r.takeWhile (fun d => !(d = '\x7d'))
    let rest := (r.dropWhile (fun d => !(d = '\x7d'))).drop 1
    bagLookup bag expr ++ evalT bag fuel rest
  | fuel + 1, c :: r => c :: evalT bag fuel r

/-- Embedding of `compile` (compiler.ts lines 8-23): the render function
binds `propKeys` from the property bag (a missing key binds `undefined`) and
evaluates the body as a template literal; `raw` is the body itself. -/
def compile (pt : ParsedTemplate) : Template :=
  { render := fun props =>
      evalT (pt.propKeys.map (fun k => (k, bagLookup props k))) (pt.body.length + 1) pt.body
    raw := pt.body }

/-- Global replace `\ -> \\` (compiler.ts line 36, `.replace(/\\/g, "\\\\")`). -/
def escBackslash : List Char → List Char
  | [] => []
  | c :: r => if c = '\\' then '\\' :: '\\' :: escBackslash r else c :: escBackslash r

/-- Global replace of backtick by backslash-backtick (compiler.ts line 37). -/
def escBacktick : List Char → List Char
  | [] => []
  | c :: r => if c = '\x60' then '\\' :: '\x60' :: escBacktick r else c :: escBacktick r

/-- Global replace of the interpolation opener by its escaped form
(compiler.ts line 38, `.replace(/\$\{/g, "\\${")`); a two-character pattern,
replaced left to right without overlap. -/
def escDollarBrace : List Char → List Char
  | [] => []
  | [c] => [c]
  | c :: d :: r =>
    if c = '$' ∧ d = '\x7b' then '\\' :: '$' :: '\x7b' :: escDollarBrace r
    else c :: escDollarBrace (d :: r)

/-- The composed escaping of the `raw` field: backslash first, then
backtick, then the interpolation opener. -/
def escapeRaw (body : List Char) : List Char :=
  escDollarBrace (escBacktick (escBackslash body))

/-- Decoding of a JS template-literal body, restricted to the escape classes
the emitted `raw` literal contains: a backslash makes the next character
literal; everything else is itself. -/
def unescapeTL : List Char → List Char
  | [] => []
  | [c] => [c]
  | c :: d :: r => if c = '\\' then d :: unescapeTL r else c :: unescapeTL (d :: r)

/-- The destructuring prologue text `const \x7b k1, k2 \x7d = props;` built by
`compileToString` when `propKeys` is nonempty. -/
def destructureOf (propKeys : List (List Char)) : List Char :=
  ("const \x7b ").toList ++ joinWith ((", ").toList) propKeys ++ (" \x7d = props;").toList

/-- Embedding of `compileToString` (compiler.ts lines 29-51): emit a module
whose `render` returns the body as a live template literal and whose `raw`
is the escaped body; the destructuring line is emitted only when the
destructure string is nonempty; lines are joined with newlines and a final
newline is appended. -/
def compileToString (pt : ParsedTemplate) : List Char :=
  let destructure :=
    if pt.propKeys.length > 0 then destructureOf pt.propKeys else []
  let escapedRaw := escapeRaw pt.body
  let lines :=
    [("export default \x7b").toList, ("  render(props) \x7b").toList]
    ++ (if destructure ≠ [] then [("    ").toList ++ destructure] else [])
    ++ [("    return \x60").toList ++ pt.body ++ ("\x60;").toList,
        ("  \x7d,").toList,
        ("  raw: \x60").toList ++ escapedRaw ++ ['\x60'],
        ("\x7d;").toList]
  joinWith nlL lines ++ ['\n']

/-- Stated from the spec for claim C8: the module text with the prologue
line present exactly when `propKeys` is nonempty (omitted entirely when
empty), to be compared with `compileToString`. -/
def specModule (pt : ParsedTemplate) : List Char :=
  joinWith nlL
    ([("export default \x7b").toList, ("  render(props) \x7b").toList]
     ++ (if pt.propKeys = [] then [] else [("    ").toList ++ destructureOf pt.propKeys])
     ++ [("    return \x60").toList ++ pt.body ++ ("\x60;").toList,
         ("  \x7d,").toList,
         ("  raw: \x60").toList ++ escapeRaw pt.body ++ ['\x60'],
         ("\x7d;").toList]) ++ ['\n']

/-- The header line emitted by `generateDts`. -/
def dtsHeaderLine : List Char := ("declare const template: import(\"typemark\").Template<\x7b").toList

/-- The closing line of the generic parameter in `generateDts`. -/
def dtsCloseLine : List Char := ("\x7d>;").toList

/-- The export line emitted by `generateDts`. -/
def dtsExportLine : List Char := ("export default template;").toList

/-- Four spaces of indentation added to the first props-body line. -/
def fourSpaces : List Char := ("    ").toList

/-- Embedding of `generateDts` (codegen): import lines, a blank line if any;
preamble declarations, a blank line if any; the header; the props body split
into lines with the first line indented four spaces; the close, the export,
and a trailing blank line; all joined with newlines. -/
def generateDts (pt : ParsedTemplate) : List Char :=
  let lines :=
    pt.imports
    ++ (if pt.imports.length > 0 then [([] : List Char)] else [])
    ++ pt.preamble
    ++ (if pt.preamble.length > 0 then [([] : List Char)] else [])
    ++ [dtsHeaderLine]
    ++ (match splitLines pt.propsBody with
        | [] => []
        | l :: ls => (fourSpaces ++ l) :: ls)
    ++ [dtsCloseLine, dtsExportLine, []]
  joinWith nlL lines

/-- Stated from the spec for claim C6: the declaration document as flat
text, exactly in the order the claim lists — imports verbatim then a blank
line if nonempty, preamble verbatim then a blank line if nonempty, the
header line, the props body with its first line prefixed by four spaces and
the rest verbatim, the close line, the export line, and a trailing blank
line. -/
def specDts (pt : ParsedTemplate) : List Char :=
  (if pt.imports = [] then [] else joinWith nlL pt.imports ++ ['\n', '\n'])
  ++ (if pt.preamble = [] then [] else joinWith nlL pt.preamble ++ ['\n', '\n'])
  ++ dtsHeaderLine ++ ['\n']
  ++ fourSpaces ++ pt.propsBody ++ ['\n']
  ++ dtsCloseLine ++ ['\n']
  ++ dtsExportLine ++ ['\n']

/-- Stated from the spec for claim C9: the span captured for one regex match
starting at `st` — for an `interface` keyword, from the match start through
the brace-depth-matching closing brace (depth 1 after the `{` that follows
the match); for a `type` keyword, to the next line break or end of text;
trimmed. The `none` branch is unreachable under the claim's premise that an
opening brace follows every `interface` match. -/
def specSpan (fm : List Char) (st : Nat) : List Char :=
  if startsWithL ifaceKW (fm.drop st) then
    match indexOfFrom lbraceStr fm st with
    | some openBrace => trim (sliceL fm st (braceScan fm (openBrace + 1) 1).1)
    | none => []
  else trim (sliceL fm st (lineEndPos fm st))

/-- Stated from the spec for claim C9: every match contributes its captured
span, in discovery order. -/
def specPreamble (fm : List Char) : List (List Char) :=
  (regexMatchList fm).map (fun m => specSpan fm m.1)

/-- Decidable premise for claim C9: an `interface` match at `st` is followed
by a `{` whose brace scan closes at depth 0. -/
def ifaceBraceOk (fm : List Char) (st : Nat) : Bool :=
  match indexOfFrom lbraceStr fm st with
  | some openBrace => (braceScan fm (openBrace + 1) 1).2 == 0
  | none => false

/-- Stated from the spec for claim C4: the two-phase per-line scan in the
claim's own terms — a line contributes a key exactly when the running depth
is 0 at the start of the line and its trimmed text matches the key pattern
(the `?` marker stripped by `matchKey`), and the line's own brace deltas are
applied only after that test. -/
def specPropKeysGo : List (List Char) → Int → List (List Char)
  | [], _ => []
  | line :: rest, depth =>
    (if depth = 0 then
      match matchKey (trim line) with
      | some k => [k]
      | none => []
    else []) ++ specPropKeysGo rest (depth + braceDeltaLine line)

/-- Stated from the spec for claim C4: property keys via the two-phase
per-line scan. -/
def specPropKeys (propsBody : List Char) : List (List Char) :=
  specPropKeysGo (splitLines propsBody) 0

/-! Concrete inputs used by the claim theorems, witnesses and
counterexamples. -/

/-- Claim C1's source: a frontmatter declaring `interface Props` with a
nested object-typed property `user` and a top-level `count`. -/
def srcC1 : List Char :=
  ("---\ninterface Props \x7b\n  user: \x7b\n    firstName: string;\n    age: number;\n  \x7d\n  count: number\n\x7d\n---\nx").toList

/-- The propKeys field of `parse srcC1`. -/
def c1Keys : Except ParseError (List (List Char)) :=
  (parse srcC1).map (fun pt => pt.propKeys)

/-- Claim C7's source: two string props and a body interpolating both. -/
def srcC7 : List Char :=
  ("---\ninterface Props \x7b\n    greeting: string;\n    name: string;\n\x7d\n---\n$\x7bgreeting\x7d, $\x7bname\x7d!").toList

/-- Claim C7's property bag `\x7bgreeting: "Hey", name: "World"\x7d`. -/
def bagC7 : List (List Char × List Char) :=
  [(("greeting").toList, ("Hey").toList), (("name").toList, ("World").toList)]

/-- The end-to-end render of claim C7: parse, compile, render with `bagC7`. -/
def c7Render : Except ParseError (List Char) :=
  (parse srcC7).map (fun pt => (compile pt).render bagC7)

/-- Claim C10's source: a default-form type import in the frontmatter. -/
def srcC10 : List Char :=
  ("---\nimport type User from \"mod\";\n\ninterface Props \x7b\n  x: string\n\x7d\n---\nhello").toList

/-- The import line of claim C10's source. -/
def importLineC10 : List Char := ("import type User from \"mod\";").toList

/-- The span the preamble pattern captures out of claim C10's import line:
the suffix starting at the `type` keyword. -/
def typeAliasC10 : List Char := ("type User from \"mod\";").toList

/-- The imports and preamble fields of `parse srcC10`. -/
def c10Fields : Except ParseError (List (List Char) × List (List Char)) :=
  (parse srcC10).map (fun pt => (pt.imports, pt.preamble))

/-- Five dashes: the first two position-occurrences of `---` overlap. -/
def dashes5 : List Char := ['-', '-', '-', '-', '-']

/-- Four dashes: two position-occurrences of `---`, both overlapping. -/
def dashes4 : List Char := ['-', '-', '-', '-']

/-- Witness source with no delimiter at all. -/
def wNoDelim : List Char := ("no delimiters here").toList

/-- Witness source with a single delimiter occurrence. -/
def wOneDelim : List Char := ("---abc").toList

/-- Witness source whose frontmatter lacks `interface Props`. -/
def wNoProps : List Char := ("---\nhello\n---\nrest").toList

/-- The frontmatter of `wNoProps`. -/
def fmNoProps : List Char := ("hello").toList

/-- Witness source whose Props marker is not followed by a brace. -/
def wNoBrace : List Char := ("---\ninterface Props\n---\nx").toList

/-- The frontmatter of `wNoBrace`. -/
def fmNoBrace : List Char := ("interface Props").toList

/-- Witness source whose Props braces never close. -/
def wUnbalanced : List Char := ("---\ninterface Props \x7b\n---\nx").toList

/-- The frontmatter of `wUnbalanced`. -/
def fmUnbalanced : List Char := ("interface Props \x7b").toList

/-- Witness source that parses successfully. -/
def wGood : List Char := ("---\ninterface Props \x7b x: string \x7d\n---\nhi").toList

/-- The frontmatter of `wGood`. -/
def fmGood : List Char := ("interface Props \x7b x: string \x7d").toList

/-- Witness source for the delimiter-splitting claim: a whitespace-only
tail after the closing delimiter. -/
def c3Src : List Char := ("---\nx\n---\n  \n").toList

/-- Witness frontmatter for the preamble claim: one helper interface and
one type alias. -/
def fmW9 : List Char := ("interface Foo \x7b\n  a: string;\n\x7d\ntype Bar = number").toList

/-- Witness parsed template with a nonempty `propKeys`. -/
def ptW8 : ParsedTemplate :=
  { imports := []
    preamble := []
    propsBody := ("x: string").toList
    body := ("hi").toList
    propKeys := [("x").toList] }

/-! Helper lemmas about the embedded JS string primitives. -/

theorem occursAt_zero (pat s : List Char) :
    occursAt pat s 0 ↔ startsWithL pat s = true := by
  simp [occursAt]

theorem occursAt_succ_cons (pat s : List Char) (c : Char) (i : Nat) :
    occursAt pat (c :: s) (i + 1) ↔ occursAt pat s i := by
  simp [occursAt]

theorem occursAt_drop (pat s : List Char) (a j : Nat) :
    occursAt pat (s.drop a) j ↔ occursAt pat s (a + j) := by
  unfold occursAt
  rw [List.drop_drop, Nat.add_comm]

theorem occursAt_lt_length {c : Char} {pat s : List Char} {i : Nat}
    (h : occursAt (c :: pat) s i) : i < s.length := by
  by_contra hge
  push_neg at hge
  have hnil : s.drop i = [] := List.drop_eq_nil_of_le hge
  unfold occursAt at h
  rw [hnil] at h
  simp [startsWithL] at h

theorem indexOfAux_none_iff (pat s : List Char) :
    indexOfAux pat s = none ↔ ∀ i, ¬ occursAt pat s i := by
  induction s with
  | nil =>
    by_cases h : startsWithL pat [] = true
    · refine iff_of_false (by simp [indexOfAux, h]) ?_
      intro hall
      exact hall 0 (by simpa [occursAt] using h)
    · refine iff_of_true (by simp [indexOfAux, h]) ?_
      intro i
      simpa [occursAt] using h
  | cons c rest ih =>
    by_cases h : startsWithL pat (c :: rest) = true
    · refine iff_of_false (by simp [indexOfAux, h]) ?_
      intro hall
      exact hall 0 (by simpa [occursAt] using h)
    · simp only [indexOfAux, h]
      rw [if_neg (by simp [h]), Option.map_eq_none', ih]
      constructor
      · intro hr i
        cases i with
        | zero => simpa [occursAt] using h
        | succ n => rw [occursAt_succ_cons]; exact hr n
      · intro hall i
        have := hall (i + 1)
        rwa [occursAt_succ_cons] at this

theorem indexOfAux_some (pat s : List Char) (k : Nat)
    (h : indexOfAux pat s = some k) : firstOccur pat s k := by
  induction s generalizing k with
  | nil =>
    by_cases hs : startsWithL pat [] = true
    · simp [indexOfAux, hs] at h
      subst h
      exact ⟨by simpa [occursAt] using hs, by omega⟩
    · simp [indexOfAux, hs] at h
  | cons c rest ih =>
    by_cases hs : startsWithL pat (c :: rest) = true
    · simp [indexOfAux, hs] at h
      subst h
      exact ⟨by simpa [occursAt] using hs, by omega⟩
    · simp only [indexOfAux] at h
      rw [if_neg (by simp [hs]), Option.map_eq_some'] at h
      rcases h with ⟨j, hj, rfl⟩
      have hf := ih j hj
      constructor
      · rw [occursAt_succ_cons]
        exact hf.1
      · intro m hm
        cases m with
        | zero => simpa [occursAt] using hs
        | succ n =>
          rw [occursAt_succ_cons]
          exact hf.2 n (by omega)

theorem firstOccur_indexOfAux (pat s : List Char) (k : Nat)
    (h : firstOccur pat s k) : indexOfAux pat s = some k := by
  cases hx : indexOfAux pat s with
  | none => exact absurd h.1 ((indexOfAux_none_iff pat s).mp hx k)
  | some m =>
    have hm := indexOfAux_some pat s m hx
    rcases Nat.lt_trichotomy k m with hlt | heq | hgt
    · exact absurd h.1 (hm.2 k hlt)
    · rw [heq]
    · exact absurd hm.1 (h.2 m hgt)

theorem indexOfFrom_none_iff (pat s : List Char) (start : Nat) :
    indexOfFrom pat s start = none ↔ ∀ j, start ≤ j → ¬ occursAt pat s j := by
  unfold indexOfFrom
  rw [Option.map_eq_none', indexOfAux_none_iff]
  constructor
  · intro h j hle
    have := h (j - start)
    rwa [occursAt_drop, Nat.add_sub_cancel' hle] at this
  · intro h i
    rw [occursAt_drop]
    exact h (start + i) (Nat.le_add_right _ _)

theorem indexOfFrom_some_iff (pat s : List Char) (start k : Nat) :
    indexOfFrom pat s start = some k ↔ firstOccurFrom pat s start k := by
  unfold indexOfFrom firstOccurFrom
  constructor
  · intro h
    rcases Option.map_eq_some'.mp h with ⟨j, hj, rfl⟩
    have hf := indexOfAux_some pat (s.drop start) j hj
    refine ⟨?_, Nat.le_add_left _ _, ?_⟩
    · have := hf.1
      rwa [occursAt_drop, Nat.add_comm] at this
    · intro q hle hlt hocc
      have hq : occursAt pat (s.drop start) (q - start) := by
        rw [occursAt_drop, Nat.add_sub_cancel' hle]
        exact hocc
      exact hf.2 (q - start) (by omega) hq
  · rintro ⟨hocc, hle, hmin⟩
    have hf : firstOccur pat (s.drop start) (k - start) := by
      constructor
      · rw [occursAt_drop, Nat.add_sub_cancel' hle]
        exact hocc
      · intro j hj
        rw [occursAt_drop]
        exact hmin (start + j) (Nat.le_add_right _ _) (by omega)
    rw [firstOccur_indexOfAux pat (s.drop start) (k - start) hf]
    simp [Option.map]
    omega

theorem trim_eq_nil_of_all_ws {s : List Char} (h : s.all wsChar = true) :
    trim s = [] := by
  unfold trim
  have h1 : s.dropWhile wsChar = [] := by
    rw [List.dropWhile_eq_nil_iff]
    intro x hx
    exact List.all_eq_true.mp h x hx
  rw [h1]
  simp

theorem joinWith_cons (sep x : List Char) (ys : List (List Char)) (h : ys ≠ []) :
    joinWith sep (x :: ys) = x ++ sep ++ joinWith sep ys := by
  cases ys with
  | nil => exact absurd rfl h
  | cons y ys => rfl

theorem joinWith_append (sep : List Char) (xs ys : List (List Char))
    (hxs : xs ≠ []) (hys : ys ≠ []) :
    joinWith sep (xs ++ ys) = joinWith sep xs ++ sep ++ joinWith sep ys := by
  induction xs with
  | nil => exact absurd rfl hxs
  | cons x xs ih =>
    cases xs with
    | nil =>
      rw [List.singleton_append, joinWith_cons sep x ys hys]
      rfl
    | cons x' xs' =>
      rw [List.cons_append,
          joinWith_cons sep x (x' :: xs' ++ ys) (by simp),
          joinWith_cons sep x (x' :: xs') (by simp),
          ih (by simp)]
      simp [List.append_assoc]

theorem joinWith_first_append (sep a l : List Char) (ls : List (List Char)) :
    joinWith sep ((a ++ l) :: ls) = a ++ joinWith sep (l :: ls) := by
  cases ls with
  | nil => rfl
  | cons y ys =>
    rw [joinWith_cons sep (a ++ l) (y :: ys) (by simp),
        joinWith_cons sep l (y :: ys) (by simp)]
    simp [List.append_assoc]

theorem splitLines_ne_nil (s : List Char) : splitLines s ≠ [] := by
  cases s with
  | nil => simp [splitLines]
  | cons c rest =>
    simp only [splitLines]
    by_cases h : c = '\n'
    · simp [h]
    · rw [if_neg h]
      cases splitLines rest <;> simp

theorem joinWith_splitLines (s : List Char) :
    joinWith nlL (splitLines s) = s := by
  induction s with
  | nil => rfl
  | cons c rest ih =>
    simp only [splitLines]
    by_cases h : c = '\n'
    · rw [if_pos h, joinWith_cons nlL [] (splitLines rest) (splitLines_ne_nil rest), ih, h]
      rfl
    · rw [if_neg h]
      cases hs : splitLines rest with
      | nil => exact absurd hs (splitLines_ne_nil rest)
      | cons l ls =>
        rw [hs] at ih
        cases ls with
        | nil =>
          simp only [joinWith] at ih ⊢
          rw [ih]
        | cons l' ls' =>
          rw [joinWith_cons nlL (c :: l) (l' :: ls') (by simp),
              joinWith_cons nlL l (l' :: ls') (by simp)] at *
          simp only [List.cons_append]
          rw [ih]

theorem braceF_shift (d : Int) (c : Char) : braceF d c = d + braceF 0 c := by
  unfold braceF
  by_cases h1 : c = '\x7b'
  · simp [h1]
  · by_cases h2 : c = '\x7d'
    · simp [h1, h2]
      omega
    · simp [h1, h2]

theorem braceDeltaLine_cons (c : Char) (t : List Char) :
    braceDeltaLine (c :: t) = braceF 0 c + braceDeltaLine t := by
  have shift : ∀ (u : List Char) (d : Int), u.foldl braceF d = d + braceDeltaLine u := by
    intro u
    induction u with
    | nil => intro d; simp [braceDeltaLine]
    | cons x xs ih =>
      intro d
      simp only [braceDeltaLine, List.foldl_cons] at *
      rw [ih (braceF d x), ih (braceF 0 x), braceF_shift d x]
      omega
  simp only [braceDeltaLine, List.foldl_cons]
  rw [shift t (braceF 0 c)]
  rfl

theorem braceDeltaLine_eq_sum (t : List Char) :
    braceDeltaLine t = (t.map (braceF 0)).sum := by
  induction t with
  | nil => rfl
  | cons c rest ih => rw [braceDeltaLine_cons, List.map_cons, List.sum_cons, ih]

theorem braceF_ws {c : Char} (h : wsChar c = true) : braceF 0 c = 0 := by
  have : c = ' ' ∨ c = '\t' ∨ c = '\n' ∨ c = '\r' ∨ c = '\x0b' ∨ c = '\x0c' := by
    simpa [wsChar, Bool.or_eq_true, decide_eq_true_eq, or_assoc] using h
  rcases this with h | h | h | h | h | h <;> subst h <;> rfl

theorem braceDeltaLine_dropWhile_ws (l : List Char) :
    braceDeltaLine (l.dropWhile wsChar) = braceDeltaLine l := by
  induction l with
  | nil => rfl
  | cons c rest ih =>
    by_cases h : wsChar c = true
    · rw [List.dropWhile_cons_of_pos h, ih, braceDeltaLine_cons, braceF_ws h]
      omega
    · rw [List.dropWhile_cons_of_neg (by simp [h])]

theorem braceDeltaLine_reverse (l : List Char) :
    braceDeltaLine l.reverse = braceDeltaLine l := by
  rw [braceDeltaLine_eq_sum, braceDeltaLine_eq_sum, List.map_reverse, List.sum_reverse]

theorem braceDeltaLine_trim (l : List Char) :
    braceDeltaLine (trim l) = braceDeltaLine l := by
  unfold trim
  rw [braceDeltaLine_reverse, braceDeltaLine_dropWhile_ws, braceDeltaLine_reverse,
      braceDeltaLine_dropWhile_ws]

theorem braceDeltaLine_of_trim_nil {l : List Char} (h : trim l = []) :
    braceDeltaLine l = 0 := by
  rw [← braceDeltaLine_trim, h]
  rfl

theorem propKeysGo_eq_spec (lines : List (List Char)) :
    ∀ depth : Int, propKeysGo lines depth = specPropKeysGo lines depth := by
  induction lines with
  | nil => intro depth; rfl
  | cons line rest ih =>
    intro depth
    simp only [propKeysGo, specPropKeysGo]
    by_cases h : trim line = []
    · rw [if_pos h, h]
      have hd : braceDeltaLine line = 0 := braceDeltaLine_of_trim_nil h
      rw [hd]
      have : (if depth = 0 then
                match matchKey [] with
                | some k => [k]
                | none => ([] : List (List Char))
              else []) = [] := by
        by_cases hz : depth = 0 <;> simp [hz, matchKey]
      rw [this, List.nil_append, add_zero]
      exact ih depth
    · rw [if_neg h, braceDeltaLine_trim]
      rw [ih (depth + braceDeltaLine line)]

theorem unescape_cons_ne {c : Char} (t : List Char) (h : ¬ c = '\\') :
    unescapeTL (c :: t) = c :: unescapeTL t := by
  cases t with
  | nil => rfl
  | cons d r => simp [unescapeTL, h]

theorem unescape_esc (x : Char) (t : List Char) :
    unescapeTL ('\\' :: x :: t) = x :: unescapeTL t := by
  simp [unescapeTL]

theorem escBackslash_cons_ne {c : Char} (t : List Char) (h : ¬ c = '\\') :
    escBackslash (c :: t) = c :: escBackslash t := by
  simp [escBackslash, h]

theorem escBacktick_cons_ne {c : Char} (t : List Char) (h : ¬ c = '\x60') :
    escBacktick (c :: t) = c :: escBacktick t := by
  simp [escBacktick, h]

theorem escDollarBrace_cons_ne {c : Char} (t : List Char)
    (h : ¬ (c = '$' ∧ t.head? = some '\x7b')) :
    escDollarBrace (c :: t) = c :: escDollarBrace t := by
  cases t with
  | nil => rfl
  | cons d r =>
    have : ¬ (c = '$' ∧ d = '\x7b') := by simpa using h
    simp [escDollarBrace, this]

theorem escDollarBrace_db (t : List Char) :
    escDollarBrace ('$' :: '\x7b' :: t) = '\\' :: '$' :: '\x7b' :: escDollarBrace t := by
  simp [escDollarBrace]

theorem ebt_eb_head (d : Char) (r : List Char) :
    ∃ e rest, escBacktick (escBackslash (d :: r)) = e :: rest ∧ (e = d ∨ e = '\\') := by
  by_cases hd : d = '\\'
  · subst hd
    have s1 : escBackslash ('\\' :: r) = '\\' :: '\\' :: escBackslash r := by
      simp [escBackslash]
    rw [s1, escBacktick_cons_ne _ (by decide)]
    exact ⟨'\\', _, rfl, Or.inr rfl⟩
  · rw [escBackslash_cons_ne _ hd]
    by_cases hb : d = '\x60'
    · subst hb
      have : escBacktick ('\x60' :: escBackslash r) =
          '\\' :: '\x60' :: escBacktick (escBackslash r) := by
        simp [escBacktick]
      rw [this]
      exact ⟨'\\', _, rfl, Or.inr rfl⟩
    · rw [escBacktick_cons_ne _ hb]
      exact ⟨d, _, rfl, Or.inl rfl⟩

theorem unescape_escapeRaw : ∀ s : List Char, unescapeTL (escapeRaw s) = s
  | [] => rfl
  | [c] => by
    show unescapeTL (escDollarBrace (escBacktick (escBackslash [c]))) = [c]
    by_cases h1 : c = '\\'
    · subst h1; rfl
    · by_cases h2 : c = '\x60'
      · subst h2; rfl
      · rw [escBackslash_cons_ne _ h1, escBacktick_cons_ne _ h2]
        rfl
  | c :: d :: r => by
    show unescapeTL (escDollarBrace (escBacktick (escBackslash (c :: d :: r)))) = c :: d :: r
    by_cases h1 : c = '\\'
    · subst h1
      obtain ⟨e, rest, hE, _⟩ := ebt_eb_head d r
      have s1 : escBackslash ('\\' :: d :: r) = '\\' :: '\\' :: escBackslash (d :: r) := by
        simp [escBackslash]
      rw [s1, escBacktick_cons_ne _ (by decide), escBacktick_cons_ne _ (by decide), hE,
          escDollarBrace_cons_ne _ (by simp), escDollarBrace_cons_ne _ (by simp),
          unescape_esc, ← hE]
      exact congrArg (fun t => '\\' :: t) (unescape_escapeRaw (d :: r))
    · by_cases h2 : c = '\x60'
      · subst h2
        obtain ⟨e, rest, hE, _⟩ := ebt_eb_head d r
        have s2 : escBacktick ('\x60' :: escBackslash (d :: r)) =
            '\\' :: '\x60' :: escBacktick (escBackslash (d :: r)) := by
          simp [escBacktick]
        rw [escBackslash_cons_ne _ h1, s2, hE,
            escDollarBrace_cons_ne _ (by simp), escDollarBrace_cons_ne _ (by simp),
            unescape_esc, ← hE]
        exact congrArg (fun t => '\x60' :: t) (unescape_escapeRaw (d :: r))
      · by_cases h3 : c = '$' ∧ d = '\x7b'
        · obtain ⟨hc, hd⟩ := h3
          subst hc; subst hd
          have s1 : escBackslash ('$' :: '\x7b' :: r) =
              '$' :: '\x7b' :: escBackslash r := by
            rw [escBackslash_cons_ne _ (by decide), escBackslash_cons_ne _ (by decide)]
          have s2 : escBacktick ('$' :: '\x7b' :: escBackslash r) =
              '$' :: '\x7b' :: escBacktick (escBackslash r) := by
            rw [escBacktick_cons_ne _ (by decide), escBacktick_cons_ne _ (by decide)]
          rw [s1, s2, escDollarBrace_db, unescape_esc,
              unescape_cons_ne _ (by decide)]
          exact congrArg (fun t => '$' :: '\x7b' :: t) (unescape_escapeRaw r)
        · by_cases h4 : c = '$'
          · subst h4
            have hd : ¬ d = '\x7b' := fun hh => h3 ⟨rfl, hh⟩
            obtain ⟨e, rest, hE, hOr⟩ := ebt_eb_head d r
            have he : ¬ e = '\x7b' := by
              rcases hOr with h | h <;> subst h
              · exact hd
              · decide
            rw [escBackslash_cons_ne _ h1, escBacktick_cons_ne _ h2, hE,
                escDollarBrace_cons_ne _ (by simp [he]),
                unescape_cons_ne _ (by decide), ← hE]
            exact congrArg (fun t => '$' :: t) (unescape_escapeRaw (d :: r))
          · obtain ⟨e, rest, hE, _⟩ := ebt_eb_head d r
            rw [escBackslash_cons_ne _ h1, escBacktick_cons_ne _ h2, hE,
                escDollarBrace_cons_ne _ (by simp [h4]),
                unescape_cons_ne _ h1, ← hE]
            exact congrArg (fun t => c :: t) (unescape_escapeRaw (d :: r))

theorem preambleFold_eq_map (fm : List Char) (ms : List (Nat × Nat)) :
    ∀ acc : List (List Char),
      (∀ m ∈ ms, startsWithL ifaceKW (fm.drop m.1) = true → ifaceBraceOk fm m.1 = true) →
      ms.foldl
        (fun acc m =>
          if startsWithL ifaceKW (fm.drop m.1) then
            match indexOfFrom lbraceStr fm m.1 with
            | none => acc
            | some openBrace =>
              acc ++ [trim (sliceL fm m.1 (braceScan fm (openBrace + 1) 1).1)]
          else
            acc ++ [trim (sliceL fm m.1 (lineEndPos fm m.1))])
        acc
      = acc ++ ms.map (fun m => specSpan fm m.1) := by
  induction ms with
  | nil => intro acc _; simp
  | cons m rest ih =>
    intro acc h
    simp only [List.foldl_cons, List.map_cons]
    by_cases hi : startsWithL ifaceKW (fm.drop m.1) = true
    · have hok := h m (by simp) hi
      unfold ifaceBraceOk at hok
      cases hb : indexOfFrom lbraceStr fm m.1 with
      | none => rw [hb] at hok; simp at hok
      | some openBrace =>
        have hspan : specSpan fm m.1 =
            trim (sliceL fm m.1 (braceScan fm (openBrace + 1) 1).1) := by
          simp only [specSpan, hi, hb, if_true]
        simp only [hi, hb, if_true]
        rw [hspan, ih _ (fun m' hm' => h m' (by simp [hm']))]
        simp
    · have hspan : specSpan fm m.1 = trim (sliceL fm m.1 (lineEndPos fm m.1)) := by
        simp only [specSpan, hi, if_false, Bool.false_eq_true]
      simp only [hi, if_false, Bool.false_eq_true]
      rw [hspan, ih _ (fun m' hm' => h m' (by simp [hm']))]
      simp

theorem destructureOf_ne_nil (keys : List (List Char)) : destructureOf keys ≠ [] := by
  unfold destructureOf
  intro h
  have := congrArg List.length h
  simp [List.length_append] at this

theorem getLast?_append_singleton (l : List Char) (a : Char) :
    (l ++ [a]).getLast? = some a := by
  rw [List.getLast?_append_cons]
  rfl

theorem compileToString_raw_embedded (pt : ParsedTemplate) :
    ∃ u v, compileToString pt = u ++ escapeRaw pt.body ++ v := by
  simp only [compileToString]
  have hassoc :
      ([("export default \x7b").toList, ("  render(props) \x7b").toList]
        ++ (if (if pt.propKeys.length > 0 then destructureOf pt.propKeys else []) ≠ []
            then [("    ").toList ++ (if pt.propKeys.length > 0 then destructureOf pt.propKeys else [])]
            else [])
        ++ [("    return \x60").toList ++ pt.body ++ ("\x60;").toList,
            ("  \x7d,").toList,
            ("  raw: \x60").toList ++ escapeRaw pt.body ++ ['\x60'],
            ("\x7d;").toList])
      = (([("export default \x7b").toList, ("  render(props) \x7b").toList]
          ++ (if (if pt.propKeys.length > 0 then destructureOf pt.propKeys else []) ≠ []
              then [("    ").toList ++ (if pt.propKeys.length > 0 then destructureOf pt.propKeys else [])]
              else [])
          ++ [("    return \x60").toList ++ pt.body ++ ("\x60;").toList,
              ("  \x7d,").toList])
         ++ [("  raw: \x60").toList ++ escapeRaw pt.body ++ ['\x60'],
             ("\x7d;").toList]) := by
    simp [List.append_assoc]
  rw [hassoc, joinWith_append nlL _ _ (by simp) (by simp)]
  refine ⟨joinWith nlL
      ([("export default \x7b").toList, ("  render(props) \x7b").toList]
        ++ (if (if pt.propKeys.length > 0 then destructureOf pt.propKeys else []) ≠ []
            then [("    ").toList ++ (if pt.propKeys.length > 0 then destructureOf pt.propKeys else [])]
            else [])
        ++ [("    return \x60").toList ++ pt.body ++ ("\x60;").toList,
            ("  \x7d,").toList]) ++ nlL ++ ("  raw: \x60").toList,
      ['\x60'] ++ nlL ++ ("\x7d;").toList ++ ['\n'], ?_⟩
  simp [joinWith, nlL, List.append_assoc]

theorem joinWith_sections (sec rest : List (List Char))
    (hsec : sec ≠ []) (hrest : rest ≠ []) :
    joinWith nlL (sec ++ ([] :: rest)) =
      joinWith nlL sec ++ ['\n', '\n'] ++ joinWith nlL rest := by
  rw [joinWith_append nlL sec ([] :: rest) hsec (by simp),
      joinWith_cons nlL [] rest hrest]
  simp [nlL, List.append_assoc]

theorem generateDts_tail (pb l : List Char) (ls : List (List Char))
    (hs : splitLines pb = l :: ls) :
    joinWith nlL (dtsHeaderLine :: (fourSpaces ++ l) :: (ls ++ [dtsCloseLine, dtsExportLine, []]))
      = dtsHeaderLine ++ ['\n'] ++ fourSpaces ++ pb ++ ['\n']
        ++ dtsCloseLine ++ ['\n'] ++ dtsExportLine ++ ['\n'] := by
  have hjoin : joinWith nlL (l :: ls) = pb := by
    rw [← hs, joinWith_splitLines]
  rw [joinWith_cons nlL dtsHeaderLine _ (by simp),
      show (fourSpaces ++ l) :: (ls ++ [dtsCloseLine, dtsExportLine, []])
         = ((fourSpaces ++ l) :: ls) ++ [dtsCloseLine, dtsExportLine, []] from by simp,
      joinWith_append nlL ((fourSpaces ++ l) :: ls) [dtsCloseLine, dtsExportLine, []]
        (by simp) (by simp),
      joinWith_first_append, hjoin]
  simp [joinWith, nlL, List.append_assoc]

/-- C1: for a source whose frontmatter declares `interface Props` with a
nested object-typed property `user` followed by a top-level `count`, parse
returns `propKeys == ["user", "count"]`; the nested identifiers `firstName`
and `age` are not among the keys. -/
theorem c1_propKeys_top_level_only :
    c1Keys = .ok [("user").toList, ("count").toList]
    ∧ ("firstName").toList ∉ [("user").toList, ("count").toList]
    ∧ ("age").toList ∉ [("user").toList, ("count").toList] :=
  ⟨rfl, by decide, by decide⟩

/-- C4: for every props body, `extractPropKeys` equals the spec's two-phase
per-line scan: split into lines with a running brace-depth counter starting
at 0; a line contributes a key exactly when the depth is 0 at the start of
the line and its trimmed text matches identifier, optional `?`, then `:`
(the marker stripped); the line's own brace deltas are applied only after
the test; order and duplicates are preserved (both sides are the same
left-to-right scan). -/
theorem c4_propKeys_eq_spec_scan (propsBody : List Char) :
    extractPropKeys propsBody = specPropKeys propsBody := by
  unfold extractPropKeys specPropKeys
  exact propKeysGo_eq_spec (splitLines propsBody) 0

/-- C5: the `raw` escaping of `compileToString` (backslash first, then
backtick, then the interpolation opener) is inverted exactly by
template-literal unescaping, so decoding the emitted raw literal yields the
original body character for character; the escaped body is embedded
verbatim in the emitted module text, and `compile` returns the body itself
as `raw`. -/
theorem c5_raw_escaping_roundtrip (pt : ParsedTemplate) :
    unescapeTL (escapeRaw pt.body) = pt.body
    ∧ (compile pt).raw = pt.body
    ∧ (∃ u v, compileToString pt = u ++ escapeRaw pt.body ++ v) :=
  ⟨unescape_escapeRaw pt.body, rfl, compileToString_raw_embedded pt⟩

/-- C9: provided every `interface`-keyword match is followed by an opening
brace whose scan closes at depth 0 (the situation the claim describes),
`extractPreamble` captures every regex match of keyword-plus-identifier
(identifier other than `Props`), in discovery order: an `interface` match
from the match start through the brace-depth-matching closing brace,
trimmed; a `type` match to the next line break or end of text, trimmed. -/
theorem c9_preamble_captures_every_match (fm : List Char)
    (h : ∀ m ∈ regexMatchList fm, startsWithL ifaceKW (fm.drop m.1) = true →
           ifaceBraceOk fm m.1 = true) :
    extractPreamble fm = specPreamble fm := by
  unfold extractPreamble specPreamble
  rw [preambleFold_eq_map fm (regexMatchList fm) [] h]
  simp

/-- Witness for C9 at a frontmatter holding one helper interface and one
type alias. -/
theorem c9_witness : extractPreamble fmW9 = specPreamble fmW9 :=
  c9_preamble_captures_every_match fmW9 (by decide)

/-- C6: for every `ParsedTemplate`, `generateDts` returns exactly, in
order: each import line verbatim then one blank line if imports is
nonempty; each preamble declaration verbatim then one blank line if
preamble is nonempty; the header line; the props body with its first line
prefixed by four spaces and subsequent lines verbatim; the close line `\x7d>;`;
the line `export default template;`; and a trailing blank line. -/
theorem c6_generateDts_structure (pt : ParsedTemplate) :
    generateDts pt = specDts pt := by
  obtain ⟨l, ls, hs⟩ : ∃ l ls, splitLines pt.propsBody = l :: ls := by
    cases h : splitLines pt.propsBody with
    | nil => exact absurd h (splitLines_ne_nil _)
    | cons l ls => exact ⟨l, ls, rfl⟩
  have htail := generateDts_tail pt.propsBody l ls hs
  simp only [generateDts, specDts, hs]
  by_cases him : pt.imports = []
  · by_cases hpre : pt.preamble = []
    · simp only [him, hpre, List.length_nil, List.nil_append, Nat.lt_irrefl,
        gt_iff_lt, if_false, List.cons_append, List.singleton_append, if_pos]
      exact htail
    · simp only [him, hpre, List.length_nil, List.nil_append, List.cons_append,
        List.singleton_append, List.append_assoc, if_true, if_false,
        gt_iff_lt, Nat.lt_irrefl, List.length_pos.mpr hpre]
      rw [joinWith_sections pt.preamble
            (dtsHeaderLine :: (fourSpaces ++ l) :: (ls ++ [dtsCloseLine, dtsExportLine, []]))
            hpre (by simp), htail]
      simp [List.append_assoc]
  · by_cases hpre : pt.preamble = []
    · simp only [him, hpre, List.length_nil, List.nil_append, List.cons_append,
        List.singleton_append, List.append_assoc, if_true, if_false,
        gt_iff_lt, Nat.lt_irrefl, List.length_pos.mpr him]
      rw [joinWith_sections pt.imports
            (dtsHeaderLine :: (fourSpaces ++ l) :: (ls ++ [dtsCloseLine, dtsExportLine, []]))
            him (by simp), htail]
      simp [List.append_assoc]
    · simp only [him, hpre, List.cons_append, List.singleton_append,
        List.append_assoc, if_true, if_false, gt_iff_lt, List.nil_append,
        List.length_pos.mpr him, List.length_pos.mpr hpre]
      rw [joinWith_sections pt.imports
            (pt.preamble ++ ([] :: (dtsHeaderLine :: (fourSpaces ++ l) :: (ls ++ [dtsCloseLine, dtsExportLine, []]))))
            him (by simp),
          joinWith_sections pt.preamble
            (dtsHeaderLine :: (fourSpaces ++ l) :: (ls ++ [dtsCloseLine, dtsExportLine, []]))
            hpre (by simp), htail]
      simp [List.append_assoc]

/-- C8: for every `ParsedTemplate`, the module text of `compileToString`
equals the spec-shaped module whose destructuring prologue line is present
exactly when `propKeys` is nonempty (omitted entirely when empty); when
`propKeys` is nonempty the prologue text occurs in the output; and the
output always ends with a trailing newline character. -/
theorem c8_prologue_and_trailing_newline (pt : ParsedTemplate) :
    compileToString pt = specModule pt
    ∧ (pt.propKeys ≠ [] → containsL (destructureOf pt.propKeys) (compileToString pt))
    ∧ (compileToString pt).getLast? = some '\n' := by
  refine ⟨?_, ?_, ?_⟩
  · simp only [compileToString, specModule]
    by_cases h : pt.propKeys = []
    · simp [h]
    · have hl : 0 < pt.propKeys.length := List.length_pos.mpr h
      simp [h, hl, destructureOf_ne_nil]
  · intro h
    have hl : 0 < pt.propKeys.length := List.length_pos.mpr h
    simp only [compileToString, gt_iff_lt, hl, if_pos, ne_eq, destructureOf_ne_nil,
      not_false_iff, List.cons_append, List.singleton_append, List.nil_append]
    refine ⟨("export default \x7b").toList ++ ['\n'] ++ ("  render(props) \x7b").toList
        ++ ['\n'] ++ ("    ").toList,
      ['\n'] ++ ("    return \x60").toList ++ pt.body ++ ("\x60;").toList
        ++ ['\n'] ++ ("  \x7d,").toList
        ++ ['\n'] ++ ("  raw: \x60").toList ++ escapeRaw pt.body ++ ['\x60']
        ++ ['\n'] ++ ("\x7d;").toList ++ ['\n'], ?_⟩
    simp [joinWith, nlL, List.append_assoc]
  · simp only [compileToString]
    exact getLast?_append_singleton _ _

/-- Counterexample for C10: for the concrete source whose frontmatter holds
the default-form type import `import type User from "mod";`, that line is
collected into imports, but the element of preamble is the captured span
`type User from "mod";` — the claim's "the same line also appears in
preamble" is false: the full line is not an element of the preamble. -/
theorem c10_counterexample :
    c10Fields = .ok ([importLineC10], [typeAliasC10])
    ∧ importLineC10 ∉ [typeAliasC10] :=
  ⟨rfl, by decide⟩

/-- C10 (amended): the import line is reported in two fields at once — it
appears verbatim in imports, and its suffix starting at the `type` keyword
(the span captured by the preamble pattern, which requires no word boundary
before the keyword) appears in preamble as a captured type-alias
declaration. -/
theorem c10_amended_double_report :
    c10Fields = .ok ([importLineC10], [typeAliasC10])
    ∧ typeAliasC10 = importLineC10.drop 7 :=
  ⟨rfl, by decide⟩

/-- Witness for C8 at a parsed template with one property key. -/
theorem c8_witness :
    compileToString ptW8 = specModule ptW8
    ∧ containsL (destructureOf ptW8.propKeys) (compileToString ptW8)
    ∧ (compileToString ptW8).getLast? = some '\n' :=
  ⟨(c8_prologue_and_trailing_newline ptW8).1,
   (c8_prologue_and_trailing_newline ptW8).2.1 (by decide),
   (c8_prologue_and_trailing_newline ptW8).2.2⟩

/-- C7: end-to-end, the source with frontmatter
`interface Props \x7b greeting: string; name: string; \x7d` and body
`$\x7bgreeting\x7d, $\x7bname\x7d!`, compiled and rendered with the bag
`\x7bgreeting: "Hey", name: "World"\x7d`, yields exactly `Hey, World!`. -/
theorem c7_end_to_end_render : c7Render = .ok (("Hey, World!").toList) := rfl

/-- Counterexample for C2: the source `----` contains two (overlapping)
occurrences of `---`, at positions 0 and 1, so it has neither no occurrence
nor exactly one, and it never produces a frontmatter; none of the claim's
failure cases applies, so the claim's catch-all says parse returns a
`ParsedTemplate` — but the code finds no second delimiter at or after
position 3 and fails with the no-closing-delimiter error. -/
theorem c2_counterexample :
    occursAt DELIM dashes4 0 ∧ occursAt DELIM dashes4 1
    ∧ (¬ ∃ p, occursAt DELIM dashes4 p ∧ ∀ q, occursAt DELIM dashes4 q → q = p)
    ∧ parse dashes4 = .error .noClosingDelimiter := by
  refine ⟨by decide, by decide, ?_, rfl⟩
  rintro ⟨p, _, huniq⟩
  have h0 := huniq 0 (by decide)
  have h1 := huniq 1 (by decide)
  omega

/-- C2 (amended): the parse failure taxonomy. The five error messages are
pairwise distinct and name their condition. No occurrence of `---` fails
with the no-opening error; a first occurrence with no further occurrence
starting at or after its end fails with the no-closing error (this covers
the claim's "exactly one occurrence" and corrects it for overlapping
occurrences); a frontmatter without `interface Props` fails with the
missing-Props error; no `\x7b` at or after the end of the first marker
occurrence fails with the missing-brace error; a brace scan ending at
nonzero depth fails with the unbalanced error; in every other case parse
returns the `ParsedTemplate` built from the scanned fields. -/
theorem c2_failure_taxonomy (s : List Char) :
    (∀ e₁ e₂ : ParseError, e₁.message = e₂.message → e₁ = e₂)
  ∧ containsL (("no opening").toList) (ParseError.message .noOpeningDelimiter)
  ∧ containsL (("no closing").toList) (ParseError.message .noClosingDelimiter)
  ∧ containsL (("interface Props").toList) (ParseError.message .missingProps)
  ∧ ((∀ i, ¬ occursAt DELIM s i) → parse s = .error .noOpeningDelimiter)
  ∧ (∀ p, firstOccur DELIM s p →
      (∀ q, p + DELIM.length ≤ q → ¬ occursAt DELIM s q) →
      parse s = .error .noClosingDelimiter)
  ∧ (∀ fm body, splitFrontmatter s = .ok (fm, body) →
      ((∀ i, ¬ occursAt propsMarker fm i) → parse s = .error .missingProps)
    ∧ (∀ mi, firstOccur propsMarker fm mi →
        ((∀ j, mi + propsMarker.length ≤ j → ¬ occursAt lbraceStr fm j) →
            parse s = .error .missingOpenBrace)
      ∧ (∀ ob, firstOccurFrom lbraceStr fm (mi + propsMarker.length) ob →
          ((braceScan fm (ob + 1) 1).2 ≠ 0 → parse s = .error .unbalancedBraces)
        ∧ ((braceScan fm (ob + 1) 1).2 = 0 →
            parse s = .ok
              { imports := extractImports fm
                preamble := extractPreamble fm
                propsBody := trim (sliceL fm (ob + 1) ((braceScan fm (ob + 1) 1).1 - 1))
                body := body
                propKeys :=
                  extractPropKeys
                    (trim (sliceL fm (ob + 1) ((braceScan fm (ob + 1) 1).1 - 1))) })))) := by
  refine ⟨?_, ?_, ?_, ?_, ?_, ?_, ?_⟩
  · intro e₁ e₂ h
    cases e₁ <;> cases e₂ <;> first
      | rfl
      | exact absurd h (by decide)
  · exact ⟨("Missing frontmatter: ").toList, (" \x60---\x60 found").toList, by decide⟩
  · exact ⟨("Missing frontmatter: ").toList, (" \x60---\x60 found").toList, by decide⟩
  · exact ⟨("Missing \x60").toList, (" \x7b ... \x7d\x60 in frontmatter").toList, by decide⟩
  · intro h
    have hnone := (indexOfAux_none_iff DELIM s).mpr h
    simp [parse, splitFrontmatter, hnone]
  · intro p hfirst hafter
    have h1 : indexOfAux DELIM s = some p := firstOccur_indexOfAux _ _ _ hfirst
    have h2 : indexOfFrom DELIM s (p + DELIM.length) = none :=
      (indexOfFrom_none_iff _ _ _).mpr hafter
    simp [parse, splitFrontmatter, h1, h2]
  · intro fm body hsplit
    refine ⟨?_, ?_⟩
    · intro h
      have hnone := (indexOfAux_none_iff propsMarker fm).mpr h
      simp [parse, hsplit, extractPropsBody, hnone]
    · intro mi hmi
      have h1 : indexOfAux propsMarker fm = some mi := firstOccur_indexOfAux _ _ _ hmi
      refine ⟨?_, ?_⟩
      · intro h
        have h2 : indexOfFrom lbraceStr fm (mi + propsMarker.length) = none :=
          (indexOfFrom_none_iff _ _ _).mpr h
        simp [parse, hsplit, extractPropsBody, h1, h2]
      · intro ob hob
        have h2 : indexOfFrom lbraceStr fm (mi + propsMarker.length) = some ob :=
          (indexOfFrom_some_iff _ _ _ _).mpr hob
        refine ⟨?_, ?_⟩
        · intro hne
          simp [parse, hsplit, extractPropsBody, h1, h2, hne]
        · intro heq
          simp [parse, hsplit, extractPropsBody, h1, h2, heq]

/-- Witness for C2's taxonomy: one concrete source per branch — no
delimiter, one delimiter, no Props marker, no opening brace, unbalanced
braces, and a fully well-formed source. -/
theorem c2_witness :
    parse wNoDelim = .error .noOpeningDelimiter
  ∧ parse wOneDelim = .error .noClosingDelimiter
  ∧ parse wNoProps = .error .missingProps
  ∧ parse wNoBrace = .error .missingOpenBrace
  ∧ parse wUnbalanced = .error .unbalancedBraces
  ∧ parse wGood = .ok
      { imports := []
        preamble := []
        propsBody := ("x: string").toList
        body := ("hi").toList
        propKeys := [("x").toList] } := by
  refine ⟨?_, ?_, ?_, ?_, ?_, ?_⟩
  · exact (c2_failure_taxonomy wNoDelim).2.2.2.2.1
      ((indexOfAux_none_iff DELIM wNoDelim).mp (by decide))
  · exact (c2_failure_taxonomy wOneDelim).2.2.2.2.2.1 0
      ⟨by decide, fun j hj => absurd hj (Nat.not_lt_zero j)⟩
      ((indexOfFrom_none_iff DELIM wOneDelim (0 + DELIM.length)).mp (by decide))
  · exact (((c2_failure_taxonomy wNoProps).2.2.2.2.2.2 fmNoProps (("rest").toList)
      (by rfl)).1) ((indexOfAux_none_iff propsMarker fmNoProps).mp (by decide))
  · exact ((((c2_failure_taxonomy wNoBrace).2.2.2.2.2.2 fmNoBrace (("x").toList)
      (by rfl)).2 0 ⟨by decide, fun j hj => absurd hj (Nat.not_lt_zero j)⟩).1)
      ((indexOfFrom_none_iff lbraceStr fmNoBrace (0 + propsMarker.length)).mp (by decide))
  · exact (((((c2_failure_taxonomy wUnbalanced).2.2.2.2.2.2 fmUnbalanced (("x").toList)
      (by rfl)).2 0 ⟨by decide, fun j hj => absurd hj (Nat.not_lt_zero j)⟩).2 16
      ⟨by decide, by decide,
       fun j h1 h2 =>
         (by decide : ∀ j < 16, 0 + propsMarker.length ≤ j →
            ¬ occursAt lbraceStr fmUnbalanced j) j h2 h1⟩).1) (by decide)
  · exact (((((c2_failure_taxonomy wGood).2.2.2.2.2.2 fmGood (("hi").toList)
      (by rfl)).2 0 ⟨by decide, fun j hj => absurd hj (Nat.not_lt_zero j)⟩).2 16
      ⟨by decide, by decide,
       fun j h1 h2 =>
         (by decide : ∀ j < 16, 0 + propsMarker.length ≤ j →
            ¬ occursAt lbraceStr fmGood j) j h2 h1⟩).2) (by decide)

/-- Counterexample for C3: the source of five dashes contains (at least)
two occurrences of `---`, at positions 0 and 1, yet parse does not split
there: the code searches for the closing delimiter only from position 3
onward, finds none, and fails. -/
theorem c3_counterexample :
    occursAt DELIM dashes5 0 ∧ occursAt DELIM dashes5 1 ∧ occursAt DELIM dashes5 2
    ∧ splitFrontmatter dashes5 = .error .noClosingDelimiter
    ∧ parse dashes5 = .error .noClosingDelimiter :=
  ⟨by decide, by decide, by decide, rfl, rfl⟩

/-- C3 (amended): for every source whose first `---` occurrence at `p` is
followed by a further occurrence starting at or after `p + 3`, the split
happens at `p` and at the earliest such occurrence `q`: the frontmatter is
the trimmed text strictly between the end of the first delimiter and `q`,
and the body is the trimmed text strictly after `q + 3`; a
whitespace-only tail yields the empty body, and a successful parse carries
exactly that body. -/
theorem c3_split_at_code_occurrences (s : List Char) (p q : Nat)
    (hp : firstOccur DELIM s p) (hq : firstOccurFrom DELIM s (p + DELIM.length) q) :
    splitFrontmatter s =
      .ok (trim (sliceL s (p + DELIM.length) q), trim (s.drop (q + DELIM.length)))
    ∧ ((s.drop (q + DELIM.length)).all wsChar = true →
        trim (s.drop (q + DELIM.length)) = [])
    ∧ (∀ pt, parse s = .ok pt → pt.body = trim (s.drop (q + DELIM.length))) := by
  have h1 : indexOfAux DELIM s = some p := firstOccur_indexOfAux _ _ _ hp
  have h2 : indexOfFrom DELIM s (p + DELIM.length) = some q :=
    (indexOfFrom_some_iff _ _ _ _).mpr hq
  have hsplit : splitFrontmatter s =
      .ok (trim (sliceL s (p + DELIM.length) q), trim (s.drop (q + DELIM.length))) := by
    simp [splitFrontmatter, h1, h2]
  refine ⟨hsplit, fun hws => trim_eq_nil_of_all_ws hws, ?_⟩
  intro pt hpt
  rw [parse, hsplit] at hpt
  simp only [] at hpt
  cases hx : extractPropsBody (trim (sliceL s (p + DELIM.length) q)) with
  | error e => rw [hx] at hpt; simp at hpt
  | ok pb =>
    rw [hx] at hpt
    simp only [Except.ok.injEq] at hpt
    rw [← hpt]

/-- Witness for C3's amended split at a source whose tail after the
closing delimiter is whitespace-only. -/
theorem c3_witness :
    splitFrontmatter c3Src =
      .ok (trim (sliceL c3Src (0 + DELIM.length) 6), trim (c3Src.drop (6 + DELIM.length)))
    ∧ trim (c3Src.drop (6 + DELIM.length)) = [] := by
  have h := c3_split_at_code_occurrences c3Src 0 6
    ⟨by decide, fun j hj => absurd hj (Nat.not_lt_zero j)⟩
    ⟨by decide, by decide,
     fun j h1 h2 =>
       (by decide : ∀ j < 6, 0 + DELIM.length ≤ j → ¬ occursAt DELIM c3Src j) j h2 h1⟩
  exact ⟨h.1, h.2.1 (by decide)⟩

end Typemark
